import Mathlib

/-!
# Verification of `sheet-firebase.js` (Daggerheart-Sheets)

A shallow embedding of the character-sheet synchronization script:

* DOM model: a page is an ordered list of field wrappers (`.field` elements);
  each wrapper has an optional `data-key` attribute, an optional input/textarea
  control and a `track-disabled` CSS-class marker.
* JS values stored in the remote `fields` mapping are strings, booleans,
  numbers or `null`; absence models `undefined`.
* The registry functions `getCurrentFieldsFromDom` / `applyFieldsToDom`, the
  track engine `applyTrackMaxes`, the debounce timer semantics, and the
  `onSnapshot` / push handlers are translated from the source.
-/

set_option autoImplicit false

namespace SheetFirebase

/-- A JavaScript value as it may appear in the `fields` mapping of the remote
document (string, boolean, number or `null`).  `undefined` / absence is
modelled by `Option.none` at use sites. -/
inductive JsVal where
  | vStr (s : String)
  | vBool (b : Bool)
  | vNum (n : Int)
  | vNull
  deriving DecidableEq, Repr

/-- A JS object used as a flat `fields` mapping.  Later insertions are consed
to the front, and lookup takes the first match, so the last write to a key
wins, as for JS property assignment. -/
abbrev Fields := List (String × JsVal)

/-- Property read `fields[key]`: first binding in the list, `none` when the
key is absent (JS `undefined`). -/
def fieldsLookup : Fields → String → Option JsVal
  | [], _ => none
  | (k', v) :: rest, k => if k' = k then some v else fieldsLookup rest k

/-- JS string coercion of a defined value (`String(v)`). -/
def jsValAsString : JsVal → String
  | .vStr s => s
  | .vBool true => "true"
  | .vBool false => "false"
  | .vNum n => toString n
  | .vNull => "null"

/-- JS truthiness `!!v` of a possibly-undefined value. -/
def jsTruthy : Option JsVal → Bool
  | none => false
  | some .vNull => false
  | some (.vStr s) => s ≠ ""
  | some (.vBool b) => b
  | some (.vNum n) => n ≠ 0

/-- JS nullish coalescing followed by assignment to a text control:
`control.value = v ?? ''` (undefined and null give the empty string, any
other value is string-coerced). -/
def jsNullishToString : Option JsVal → String
  | none => ""
  | some .vNull => ""
  | some v => jsValAsString v

/-- The string `parseInt` sees for a possibly-undefined argument: `undefined`
and `null` are coerced to their literal spellings, other values are
string-coerced. -/
def parseArgString : Option JsVal → String
  | none => "undefined"
  | some v => jsValAsString v

/-- Digit run to a natural number, most significant digit first. -/
def digitsToNat (cs : List Char) : Nat :=
  cs.foldl (fun n c => 10 * n + (c.toNat - Char.toNat '0')) 0

/-- `parseInt(s, 10)`: skip leading whitespace, read an optional sign, then a
maximal run of decimal digits; `none` models `NaN` (no digits found). -/
def jsParseInt (s : String) : Option Int :=
  let cs := s.data.dropWhile Char.isWhitespace
  match cs with
  | '-' :: rest =>
    let digits := rest.takeWhile Char.isDigit
    if digits.isEmpty then none else some (-(digitsToNat digits : Int))
  | '+' :: rest =>
    let digits := rest.takeWhile Char.isDigit
    if digits.isEmpty then none else some (digitsToNat digits : Int)
  | _ =>
    let digits := cs.takeWhile Char.isDigit
    if digits.isEmpty then none else some (digitsToNat digits : Int)

/-- The HTML control kind the script distinguishes:
`control.type === 'checkbox'` against everything else (text inputs,
textareas). -/
inductive ControlKind where
  | checkbox
  | text
  deriving DecidableEq, Repr

/-- An input/textarea control: its kind, `checked` flag, `value` string and
`disabled` flag. -/
structure Control where
  kind : ControlKind
  checked : Bool
  value : String
  disabled : Bool
  deriving DecidableEq, Repr

/-- A `.field` wrapper element: the optional `data-key` attribute, the first
input/textarea inside it (if any), and whether its class list contains
`track-disabled`. -/
structure Wrapper where
  key : Option String
  control : Option Control
  trackDisabled : Bool
  deriving DecidableEq, Repr

/-- The document, restricted to what the script sees: all `.field` wrappers
in document order (`getAllFieldWrappers`). -/
abbrev Dom := List Wrapper

/-- The `!key` guard of the source: a wrapper takes part in read/apply only
when `data-key` is present and non-empty (the empty string is falsy). -/
def validKey (w : Wrapper) : Option String :=
  match w.key with
  | some k => if k = "" then none else some k
  | none => none

/-- The value `getCurrentFieldsFromDom` stores for a control: `!!checked` for
a checkbox, `value` for anything else. -/
def ctrlVal (c : Control) : JsVal :=
  match c.kind with
  | .checkbox => .vBool c.checked
  | .text => .vStr c.value

/-- One iteration of the `getCurrentFieldsFromDom` loop: record the control
value under the wrapper's key, skipping wrappers without key or control. -/
def readStep (data : Fields) (w : Wrapper) : Fields :=
  match validKey w, w.control with
  | some k, some c => (k, ctrlVal c) :: data
  | _, _ => data

/-- `getCurrentFieldsFromDom()`: sweep all wrappers in document order and
collect their current logical values. -/
def getCurrentFieldsFromDom (dom : Dom) : Fields :=
  dom.foldl readStep []

/-- One iteration of the `applyFieldsToDom` loop: look the wrapper's key up
in `fields` and write the result into the control (`!!value` for a checkbox,
`value ?? ''` for text); wrappers without key or control are skipped. -/
def applyWrapperFields (fields : Fields) (w : Wrapper) : Wrapper :=
  match validKey w, w.control with
  | some k, some c =>
    let value := fieldsLookup fields k
    match c.kind with
    | .checkbox => { w with control := some { c with checked := jsTruthy value } }
    | .text => { w with control := some { c with value := jsNullishToString value } }
  | _, _ => w

/-- `applyFieldsToDom(fields)`: early return on a falsy argument, otherwise a
sweep over every wrapper. -/
def applyFieldsToDom (fields : Option Fields) (dom : Dom) : Dom :=
  match fields with
  | none => dom
  | some f => dom.map (applyWrapperFields f)

/-! ## Track constraint engine (`applyTrackMaxes`) -/

/-- The fixed catalog of tracks: base key and absolute printed maximum
(`TRACK_DEFINITIONS` of the source). -/
def TRACK_DEFINITIONS : List (String × Nat) :=
  [("armor", 12), ("hp", 12), ("stress", 12), ("hope", 10),
   ("gold_hand", 9), ("gold_bag", 9), ("proficiency", 6)]

/-- The sub-field key `${baseKey}_${i}` addressed by the engine's
`querySelector` call. -/
def trackKey (baseKey : String) (i : Nat) : String :=
  baseKey ++ "_" ++ toString i

/-- The effective maximum of one track:
`parseInt(fields[baseKey + '_max'], 10)`, with `NaN` and negative values
replaced by `absoluteMax` and larger values clamped down to it. -/
def currentMaxOf (fields : Fields) (baseKey : String) (absoluteMax : Nat) : Nat :=
  match jsParseInt (parseArgString (fieldsLookup fields (baseKey ++ "_max"))) with
  | none => absoluteMax
  | some n =>
    if n < 0 then absoluteMax
    else if (absoluteMax : Int) < n then absoluteMax
    else n.toNat

/-- The per-wrapper effect of one loop iteration of `applyTrackMaxes`: when
the index is in range (`active`) the control is enabled and the
`track-disabled` class removed; otherwise the control is cleared
(checkbox unchecked, text emptied), disabled, and the class added.  A wrapper
without a control is skipped (`if (!control) continue`). -/
def enforceWrapper (active : Bool) (w : Wrapper) : Wrapper :=
  match w.control with
  | none => w
  | some c =>
    if active then
      { w with control := some { c with disabled := false }, trackDisabled := false }
    else
      let c' :=
        match c.kind with
        | .checkbox => { c with checked := false }
        | .text => { c with value := "" }
      { w with control := some { c' with disabled := true }, trackDisabled := true }

/-- `document.querySelector('.field[data-key=...]')` followed by an in-place
mutation: rewrite the first wrapper whose `data-key` equals `k`, leave
everything else alone (no wrapper matched means no effect). -/
def updateFirstWithKey (dom : Dom) (k : String) (f : Wrapper → Wrapper) : Dom :=
  match dom with
  | [] => []
  | w :: ws => if w.key = some k then f w :: ws else w :: updateFirstWithKey ws k f

/-- `document.querySelector('.field[data-key=...]')` itself: the first
wrapper carrying the key. -/
def findFirst (k : String) : Dom → Option Wrapper
  | [] => none
  | w :: ws => if w.key = some k then some w else findFirst k ws

/-- `applyTrackMaxes(fields)`: early return on a falsy argument; otherwise,
for every catalog entry and every index below the absolute maximum, update
the first wrapper keyed `${baseKey}_${i}` according to whether the index is
below the effective maximum. -/
def applyTrackMaxes (fields : Option Fields) (dom : Dom) : Dom :=
  match fields with
  | none => dom
  | some f =>
    TRACK_DEFINITIONS.foldl
      (fun d p =>
        (List.range p.2).foldl
          (fun d' i =>
            updateFirstWithKey d' (trackKey p.1 i)
              (enforceWrapper (decide (i < currentMaxOf f p.1 p.2)))) d)
      dom

/-! ## Debounce and push -/

/-- The quiet window handed to `debounce` for `pushUpdates` (milliseconds). -/
def debounceDelay : Nat := 400

/-- Timer semantics of the `debounce` helper, over the sorted list of trigger
times: each trigger clears any pending timer and schedules the callback at
`t + d`; a pending timer fires exactly when its due time arrives before the
next trigger.  The result lists the callback invocation times. -/
def debounceFires (d : Nat) : List Nat → List Nat
  | [] => []
  | [t] => [t + d]
  | t :: t' :: ts =>
    if t' < t + d then debounceFires d (t' :: ts)
    else (t + d) :: debounceFires d (t' :: ts)

/-! ## Remote sync channel (snapshot handler and push) -/

/-- The connection-status strings the script writes to `#connection-status`,
as an enumeration: `Syncing…`, `Synced ✔`, `Sync failed ❌`,
`Connected (new sheet) 🔄`, `Connected (loaded from cloud) ✔`,
`Updated from cloud 🔄`, `Connection error ❌`. -/
inductive ConnStatus where
  | syncing
  | synced
  | syncFailed
  | connectedNew
  | connectedLoaded
  | updatedFromCloud
  | connectionError
  deriving DecidableEq, Repr

/-- A document payload written by the script:
`{ fields, updatedAt: Date.now() }`. -/
structure WritePayload where
  fields : Fields
  updatedAt : Nat
  deriving DecidableEq, Repr

/-- The mutable state of the snapshot subscription: the `isInitialLoad`
one-shot flag and the page's wrappers. -/
structure SyncState where
  isInitialLoad : Bool
  dom : Dom
  deriving DecidableEq, Repr

/-- A delivered snapshot: either the document does not exist, or it exists
with `snapshot.data()` being possibly `undefined` (outer option) and its
`fields` member possibly absent (inner option). -/
inductive Snapshot where
  | missing
  | existing (data : Option (Option Fields))
  deriving DecidableEq, Repr

/-- `const data = snapshot.data() || {}; const fields = data.fields || {};`
— the fields mapping the handler actually works with. -/
def effectiveFields : Option (Option Fields) → Fields
  | none => []
  | some none => []
  | some (some f) => f

/-- The `onSnapshot` success handler: a missing document causes a merge-write
of the current DOM values plus a timestamp and the `connectedNew` status with
no DOM change and the flag untouched; an existing document is applied via
`applyFieldsToDom` then `applyTrackMaxes`, the status depends on the one-shot
flag, and the flag is cleared. -/
def handleSnapshot (st : SyncState) (snap : Snapshot) (now : Nat) :
    SyncState × ConnStatus × List WritePayload :=
  match snap with
  | .missing =>
    (st, ConnStatus.connectedNew, [⟨getCurrentFieldsFromDom st.dom, now⟩])
  | .existing data =>
    let fields := effectiveFields data
    let dom' := applyTrackMaxes (some fields) (applyFieldsToDom (some fields) st.dom)
    ({ isInitialLoad := false, dom := dom' },
     if st.isInitialLoad then ConnStatus.connectedLoaded else ConnStatus.updatedFromCloud,
     [])

/-- Run the subscription handler over a sequence of delivered snapshots (each
paired with its delivery time), collecting the reported statuses. -/
def runSnapshots : SyncState → List (Snapshot × Nat) → SyncState × List ConnStatus
  | st, [] => (st, [])
  | st, (snap, now) :: rest =>
    let r := handleSnapshot st snap now
    let rec' := runSnapshots r.1 rest
    (rec'.1, r.2.1 :: rec'.2)

/-- The body of the debounced `pushUpdates` callback: read the current DOM
values, attempt exactly one merge-write of `{ fields, updatedAt }`, and
report `synced` or `syncFailed` according to the write outcome; the DOM is
never touched and no retry is issued. -/
def pushUpdatesBody (dom : Dom) (writeOk : Bool) (now : Nat) :
    Dom × ConnStatus × List WritePayload :=
  let fields := getCurrentFieldsFromDom dom
  (dom,
   if writeOk then ConnStatus.synced else ConnStatus.syncFailed,
   [⟨fields, now⟩])

/-! ## Infrastructure: the track engine as a flat sequence of keyed updates -/

/-- A wrapper transformer that never changes the `data-key` attribute. -/
def KeyPreserving (f : Wrapper → Wrapper) : Prop :=
  ∀ w, (f w).key = w.key

/-- Apply a list of keyed updates left to right. -/
def applyOps (ops : List (String × (Wrapper → Wrapper))) (dom : Dom) : Dom :=
  ops.foldl (fun d op => updateFirstWithKey d op.1 op.2) dom

/-- The keyed updates generated by `applyTrackMaxes` for a suffix of the
catalog, in execution order. -/
def trackOpsAux (fields : Fields) : List (String × Nat) → List (String × (Wrapper → Wrapper))
  | [] => []
  | p :: rest =>
    (List.range p.2).map
        (fun i => (trackKey p.1 i, enforceWrapper (decide (i < currentMaxOf fields p.1 p.2))))
      ++ trackOpsAux fields rest

/-- The keyed updates generated by `applyTrackMaxes` over the whole catalog. -/
def trackOps (fields : Fields) : List (String × (Wrapper → Wrapper)) :=
  trackOpsAux fields TRACK_DEFINITIONS

/-- All sub-field keys the engine ever touches, in execution order. -/
def trackKeys : List String :=
  TRACK_DEFINITIONS.foldr (fun p acc => (List.range p.2).map (trackKey p.1) ++ acc) []

theorem enforceWrapper_key (a : Bool) (w : Wrapper) : (enforceWrapper a w).key = w.key := by
  cases w with
  | mk key control td =>
    cases control with
    | none => rfl
    | some c => cases a <;> cases c.kind <;> rfl

theorem enforceWrapper_keyPreserving (a : Bool) : KeyPreserving (enforceWrapper a) :=
  enforceWrapper_key a

theorem enforceWrapper_idem (a : Bool) (w : Wrapper) :
    enforceWrapper a (enforceWrapper a w) = enforceWrapper a w := by
  cases w with
  | mk key control td =>
    cases control with
    | none => rfl
    | some c => cases a <;> cases hk : c.kind <;> simp [enforceWrapper, hk]

theorem applyOps_nil (dom : Dom) : applyOps [] dom = dom := rfl

theorem applyOps_cons (op : String × (Wrapper → Wrapper))
    (ops : List (String × (Wrapper → Wrapper))) (dom : Dom) :
    applyOps (op :: ops) dom = applyOps ops (updateFirstWithKey dom op.1 op.2) := rfl

theorem applyOps_append (a b : List (String × (Wrapper → Wrapper))) (dom : Dom) :
    applyOps (a ++ b) dom = applyOps b (applyOps a dom) := by
  simp [applyOps, List.foldl_append]

theorem findFirst_updateFirstWithKey_ne (dom : Dom) (k k' : String)
    (f : Wrapper → Wrapper) (hkp : KeyPreserving f) (h : k' ≠ k) :
    findFirst k' (updateFirstWithKey dom k f) = findFirst k' dom := by
  induction dom with
  | nil => rfl
  | cons w ws ih =>
    by_cases hw : w.key = some k
    · have hne : (f w).key ≠ some k' := by
        rw [hkp w, hw]
        simp [h.symm]
      have hne' : w.key ≠ some k' := by
        rw [hw]; simp [h.symm]
      simp [updateFirstWithKey, findFirst, hw, hne, hne', h, Ne.symm h]
    · by_cases hw' : w.key = some k'
      · simp [updateFirstWithKey, findFirst, hw, hw', h, Ne.symm h]
      · simp [updateFirstWithKey, findFirst, hw, hw', ih, h, Ne.symm h]

theorem findFirst_updateFirstWithKey_eq (dom : Dom) (k : String)
    (f : Wrapper → Wrapper) (hkp : KeyPreserving f) :
    findFirst k (updateFirstWithKey dom k f) = (findFirst k dom).map f := by
  induction dom with
  | nil => rfl
  | cons w ws ih =>
    by_cases hw : w.key = some k
    · have : (f w).key = some k := by rw [hkp w, hw]
      simp [updateFirstWithKey, findFirst, hw, this]
    · simp [updateFirstWithKey, findFirst, hw, ih]

theorem updateFirstWithKey_comm (dom : Dom) (k k' : String)
    (f g : Wrapper → Wrapper) (hf : KeyPreserving f) (hg : KeyPreserving g)
    (h : k ≠ k') :
    updateFirstWithKey (updateFirstWithKey dom k f) k' g
      = updateFirstWithKey (updateFirstWithKey dom k' g) k f := by
  induction dom with
  | nil => rfl
  | cons w ws ih =>
    by_cases hw : w.key = some k
    · have h1 : (f w).key ≠ some k' := by rw [hf w, hw]; simp [h]
      have h2 : w.key ≠ some k' := by rw [hw]; simp [h]
      simp [updateFirstWithKey, hw, h1, h2, h, Ne.symm h]
    · by_cases hw' : w.key = some k'
      · have h3 : (g w).key ≠ some k := by rw [hg w, hw']; simp [h.symm]
        simp [updateFirstWithKey, hw, hw', h3, h, Ne.symm h]
      · simp [updateFirstWithKey, hw, hw', ih, h, Ne.symm h]

theorem updateFirstWithKey_idem (dom : Dom) (k : String)
    (f : Wrapper → Wrapper) (hkp : KeyPreserving f)
    (hf : ∀ w, f (f w) = f w) :
    updateFirstWithKey (updateFirstWithKey dom k f) k f
      = updateFirstWithKey dom k f := by
  induction dom with
  | nil => rfl
  | cons w ws ih =>
    by_cases hw : w.key = some k
    · have : (f w).key = some k := by rw [hkp w, hw]
      simp [updateFirstWithKey, hw, this, hf]
    · simp [updateFirstWithKey, hw, ih]

/-- Ops whose key is never `k` do not disturb the first wrapper keyed `k`. -/
theorem findFirst_applyOps_notMem (ops : List (String × (Wrapper → Wrapper)))
    (dom : Dom) (k : String)
    (hkp : ∀ op ∈ ops, KeyPreserving op.2)
    (hk : k ∉ ops.map Prod.fst) :
    findFirst k (applyOps ops dom) = findFirst k dom := by
  induction ops generalizing dom with
  | nil => rfl
  | cons op rest ih =>
    have hk1 : k ≠ op.1 := by
      intro h
      exact hk (by simp [h])
    have hk2 : k ∉ rest.map Prod.fst := by
      intro h
      exact hk (by simp [h])
    rw [applyOps_cons,
      ih _ (fun o ho => hkp o (List.mem_cons_of_mem _ ho)) hk2,
      findFirst_updateFirstWithKey_ne _ _ _ _ (hkp op (List.mem_cons_self _ _)) hk1]

/-- With pairwise-distinct op keys, the first wrapper keyed `k` after the
whole sweep is the original one transformed by the unique op for `k`. -/
theorem findFirst_applyOps_mem (ops : List (String × (Wrapper → Wrapper)))
    (dom : Dom) (k : String) (f : Wrapper → Wrapper)
    (hkp : ∀ op ∈ ops, KeyPreserving op.2)
    (hnd : (ops.map Prod.fst).Nodup)
    (hmem : (k, f) ∈ ops) :
    findFirst k (applyOps ops dom) = (findFirst k dom).map f := by
  induction ops generalizing dom with
  | nil => cases hmem
  | cons op rest ih =>
    rcases List.mem_cons.mp hmem with heq | hrest
    · have hknotin : k ∉ rest.map Prod.fst := by
        have := (List.nodup_cons.mp hnd).1
        simpa [← heq] using this
      rw [applyOps_cons,
        findFirst_applyOps_notMem _ _ _ (fun o ho => hkp o (List.mem_cons_of_mem _ ho)) hknotin,
        ← heq]
      exact findFirst_updateFirstWithKey_eq _ _ _ (by simpa [← heq] using hkp op (List.mem_cons_self _ _))
    · have hkin : k ∈ rest.map Prod.fst := by
        exact List.mem_map.mpr ⟨(k, f), hrest, rfl⟩
      have hne : k ≠ op.1 := by
        intro h
        exact (List.nodup_cons.mp hnd).1 (h ▸ hkin)
      rw [applyOps_cons,
        ih _ (fun o ho => hkp o (List.mem_cons_of_mem _ ho)) (List.nodup_cons.mp hnd).2 hrest,
        findFirst_updateFirstWithKey_ne _ _ _ _ (hkp op (List.mem_cons_self _ _)) hne]

/-- A single keyed update whose key is absent from an op list commutes past
that op list. -/
theorem updateFirstWithKey_applyOps_comm (ops : List (String × (Wrapper → Wrapper)))
    (dom : Dom) (k : String) (f : Wrapper → Wrapper)
    (hf : KeyPreserving f)
    (hkp : ∀ op ∈ ops, KeyPreserving op.2)
    (hk : k ∉ ops.map Prod.fst) :
    applyOps ops (updateFirstWithKey dom k f)
      = updateFirstWithKey (applyOps ops dom) k f := by
  induction ops generalizing dom with
  | nil => rfl
  | cons op rest ih =>
    have hk1 : k ≠ op.1 := by
      intro h
      exact hk (by simp [h])
    have hk2 : k ∉ rest.map Prod.fst := by
      intro h
      exact hk (by simp [h])
    rw [applyOps_cons,
      updateFirstWithKey_comm _ _ _ _ _ hf (hkp op (List.mem_cons_self _ _)) hk1,
      applyOps_cons,
      ih _ (fun o ho => hkp o (List.mem_cons_of_mem _ ho)) hk2]

/-- A sweep of keyed updates with pairwise-distinct keys, each idempotent and
key-preserving, is idempotent as a whole. -/
theorem applyOps_idem (ops : List (String × (Wrapper → Wrapper))) (dom : Dom)
    (hkp : ∀ op ∈ ops, KeyPreserving op.2)
    (hid : ∀ op ∈ ops, ∀ w, op.2 (op.2 w) = op.2 w)
    (hnd : (ops.map Prod.fst).Nodup) :
    applyOps ops (applyOps ops dom) = applyOps ops dom := by
  induction ops generalizing dom with
  | nil => rfl
  | cons op rest ih =>
    have hkp0 := hkp op (List.mem_cons_self _ _)
    have hkprest := fun o ho => hkp o (List.mem_cons_of_mem _ ho)
    have hknotin : op.1 ∉ rest.map Prod.fst := (List.nodup_cons.mp hnd).1
    rw [applyOps_cons, applyOps_cons,
      ← updateFirstWithKey_applyOps_comm rest _ op.1 op.2 hkp0 hkprest hknotin,
      updateFirstWithKey_idem _ _ _ hkp0 (hid op (List.mem_cons_self _ _)),
      ih _ hkprest (fun o ho w => hid o (List.mem_cons_of_mem _ ho) w) (List.nodup_cons.mp hnd).2]

/-- The nested loops of `applyTrackMaxes` execute exactly the flat op list
`trackOpsAux` of a catalog suffix. -/
theorem foldl_tracks_eq_applyOps (fields : Fields) (l : List (String × Nat)) (dom : Dom) :
    l.foldl
        (fun d p =>
          (List.range p.2).foldl
            (fun d' i =>
              updateFirstWithKey d' (trackKey p.1 i)
                (enforceWrapper (decide (i < currentMaxOf fields p.1 p.2)))) d)
        dom
      = applyOps (trackOpsAux fields l) dom := by
  induction l generalizing dom with
  | nil => rfl
  | cons p rest ih =>
    rw [List.foldl_cons, trackOpsAux, applyOps_append, ← ih]
    congr 1
    simp [applyOps, List.foldl_map]

/-- `applyTrackMaxes` with a truthy argument is the flat sweep `applyOps`
over `trackOps`. -/
theorem applyTrackMaxes_eq_applyOps (fields : Fields) (dom : Dom) :
    applyTrackMaxes (some fields) dom = applyOps (trackOps fields) dom :=
  foldl_tracks_eq_applyOps fields TRACK_DEFINITIONS dom

/-- Every op generated by the engine is an `enforceWrapper`. -/
theorem trackOpsAux_snd (fields : Fields) (l : List (String × Nat))
    (op : String × (Wrapper → Wrapper)) (hop : op ∈ trackOpsAux fields l) :
    ∃ a, op.2 = enforceWrapper a := by
  induction l with
  | nil => cases hop
  | cons p rest ih =>
    rcases List.mem_append.mp hop with hin | hin
    · rcases List.mem_map.mp hin with ⟨i, _, rfl⟩
      exact ⟨_, rfl⟩
    · exact ih hin

theorem trackOps_keyPreserving (fields : Fields) :
    ∀ op ∈ trackOps fields, KeyPreserving op.2 := by
  intro op hop
  rcases trackOpsAux_snd fields TRACK_DEFINITIONS op hop with ⟨a, ha⟩
  rw [ha]
  exact enforceWrapper_keyPreserving a

theorem trackOps_idem (fields : Fields) :
    ∀ op ∈ trackOps fields, ∀ w, op.2 (op.2 w) = op.2 w := by
  intro op hop w
  rcases trackOpsAux_snd fields TRACK_DEFINITIONS op hop with ⟨a, ha⟩
  rw [ha]
  exact enforceWrapper_idem a w

/-- The op keys, in order, do not depend on the fields mapping. -/
theorem trackOps_map_fst (fields : Fields) :
    (trackOps fields).map Prod.fst = trackKeys := by
  rfl

/-- All 70 generated sub-field keys are pairwise distinct. -/
theorem trackKeys_nodup : trackKeys.Nodup := by decide

/-- Membership of the op for index `i` of a track of a catalog suffix. -/
theorem trackOpsAux_mem (fields : Fields) (l : List (String × Nat)) (b : String) (A : Nat)
    (hb : (b, A) ∈ l) (i : Nat) (hi : i < A) :
    (trackKey b i, enforceWrapper (decide (i < currentMaxOf fields b A)))
      ∈ trackOpsAux fields l := by
  induction l with
  | nil => cases hb
  | cons p rest ih =>
    rcases List.mem_cons.mp hb with heq | hrest
    · apply List.mem_append_left
      apply List.mem_map.mpr
      exact ⟨i, List.mem_range.mpr (by rw [← heq]; exact hi), by rw [← heq]⟩
    · exact List.mem_append_right _ (ih hrest)

/-- Membership of the op for index `i` of a catalog track. -/
theorem trackOps_mem (fields : Fields) (b : String) (A : Nat)
    (hb : (b, A) ∈ TRACK_DEFINITIONS) (i : Nat) (hi : i < A) :
    (trackKey b i, enforceWrapper (decide (i < currentMaxOf fields b A)))
      ∈ trackOps fields :=
  trackOpsAux_mem fields TRACK_DEFINITIONS b A hb i hi

/-- The observable effect of `applyTrackMaxes` on the first wrapper keyed
`${b}_${i}` of a catalog track: it is routed through exactly one
`enforceWrapper`, with activity decided by the effective maximum. -/
theorem findFirst_applyTrackMaxes (fields : Fields) (dom : Dom) (b : String) (A : Nat)
    (hb : (b, A) ∈ TRACK_DEFINITIONS) (i : Nat) (hi : i < A) :
    findFirst (trackKey b i) (applyTrackMaxes (some fields) dom)
      = (findFirst (trackKey b i) dom).map
          (enforceWrapper (decide (i < currentMaxOf fields b A))) := by
  rw [applyTrackMaxes_eq_applyOps]
  exact findFirst_applyOps_mem _ _ _ _ (trackOps_keyPreserving fields)
    (by rw [trackOps_map_fst]; exact trackKeys_nodup)
    (trackOps_mem fields b A hb i hi)

/-- An active index: the control is re-enabled, its value untouched, and the
`track-disabled` marker removed. -/
theorem enforceWrapper_active (w : Wrapper) (c : Control) (hc : w.control = some c) :
    enforceWrapper true w
      = { w with control := some { c with disabled := false }, trackDisabled := false } := by
  simp [enforceWrapper, hc]

/-- A beyond-max checkbox: unchecked, disabled, marked. -/
theorem enforceWrapper_inactive_checkbox (w : Wrapper) (c : Control)
    (hc : w.control = some c) (hk : c.kind = ControlKind.checkbox) :
    enforceWrapper false w
      = { w with
          control := some { c with checked := false, disabled := true },
          trackDisabled := true } := by
  simp [enforceWrapper, hc, hk]

/-- A beyond-max text control: emptied, disabled, marked. -/
theorem enforceWrapper_inactive_text (w : Wrapper) (c : Control)
    (hc : w.control = some c) (hk : c.kind = ControlKind.text) :
    enforceWrapper false w
      = { w with
          control := some { c with value := "", disabled := true },
          trackDisabled := true } := by
  simp [enforceWrapper, hc, hk]

/-! ## Infrastructure: the read-all / apply-all round trip -/

/-- The non-empty `data-key` attributes present in the page, in order. -/
def domKeys (dom : Dom) : List String :=
  dom.filterMap validKey

/-- Reading a key that no wrapper of `dom` carries falls through to the
accumulator. -/
theorem foldl_readStep_notMem (dom : Dom) (acc : Fields) (k : String)
    (hk : k ∉ domKeys dom) :
    fieldsLookup (dom.foldl readStep acc) k = fieldsLookup acc k := by
  induction dom generalizing acc with
  | nil => rfl
  | cons w ws ih =>
    have hk1 : validKey w ≠ some k := by
      intro h
      exact hk (by simp [domKeys, List.filterMap_cons, h])
    have hk2 : k ∉ domKeys ws := by
      intro h
      apply hk
      simp only [domKeys, List.filterMap_cons]
      cases validKey w <;> simp [h, domKeys] at h ⊢ <;> simp [h]
    rw [List.foldl_cons, ih _ hk2]
    unfold readStep
    cases hv : validKey w with
    | none => rfl
    | some k' =>
      cases hc : w.control with
      | none => rfl
      | some c =>
        have : k' ≠ k := by
          intro h
          exact hk1 (by rw [hv, h])
        simp [fieldsLookup, this]

/-- Under unique keys, `getCurrentFieldsFromDom` maps the key of a wrapper
with a control to that control's current logical value. -/
theorem foldl_readStep_mem (dom : Dom) (acc : Fields) (w : Wrapper) (k : String)
    (c : Control) (hnd : (domKeys dom).Nodup) (hw : w ∈ dom)
    (hk : validKey w = some k) (hc : w.control = some c) :
    fieldsLookup (dom.foldl readStep acc) k = some (ctrlVal c) := by
  induction dom generalizing acc with
  | nil => cases hw
  | cons w' ws ih =>
    have hnd' : (domKeys ws).Nodup := by
      revert hnd
      simp only [domKeys, List.filterMap_cons]
      cases validKey w' <;> intro hnd
      · exact hnd
      · exact (List.nodup_cons.mp hnd).2
    rcases List.mem_cons.mp hw with heq | hmem
    · subst heq
      have hknotin : k ∉ domKeys ws := by
        have : domKeys (w :: ws) = k :: domKeys ws := by
          simp [domKeys, List.filterMap_cons, hk]
        rw [this] at hnd
        exact (List.nodup_cons.mp hnd).1
      rw [List.foldl_cons, foldl_readStep_notMem ws _ k hknotin]
      unfold readStep
      rw [hk, hc]
      simp [fieldsLookup]
    · exact ih _ hnd' hmem

/-- `fields[k]` read back from a full DOM sweep, for the unique wrapper
carrying `k`. -/
theorem getCurrentFieldsFromDom_lookup (dom : Dom) (w : Wrapper) (k : String)
    (c : Control) (hnd : (domKeys dom).Nodup) (hw : w ∈ dom)
    (hk : validKey w = some k) (hc : w.control = some c) :
    fieldsLookup (getCurrentFieldsFromDom dom) k = some (ctrlVal c) :=
  foldl_readStep_mem dom [] w k c hnd hw hk hc

/-- Writing a control's own logical value back into it is the identity. -/
theorem applyWrapperFields_self (dom : Dom) (hnd : (domKeys dom).Nodup)
    (w : Wrapper) (hw : w ∈ dom) :
    applyWrapperFields (getCurrentFieldsFromDom dom) w = w := by
  cases hk : validKey w with
  | none => simp [applyWrapperFields, hk]
  | some k =>
    cases hc : w.control with
    | none => simp [applyWrapperFields, hk, hc]
    | some c =>
      have hl := getCurrentFieldsFromDom_lookup dom w k c hnd hw hk hc
      cases hkind : c.kind with
      | checkbox =>
        have hcc : { c with checked := c.checked } = c := rfl
        simp only [applyWrapperFields, hk, hc, hl, hkind, ctrlVal, jsTruthy]
        rw [← hkind, hcc, ← hc]
      | text =>
        have hcc : { c with value := c.value } = c := rfl
        simp only [applyWrapperFields, hk, hc, hl, hkind, ctrlVal, jsNullishToString,
          jsValAsString]
        rw [← hkind, hcc, ← hc]

/-! ## Infrastructure: debounce timing and snapshot traces -/

/-- A burst: every trigger lands inside the quiet window of its predecessor,
so only the timer scheduled by the last trigger ever fires. -/
theorem debounceFires_burst (d : Nat) (ts : List Nat) (h : ts ≠ [])
    (hchain : List.Chain' (fun a b => b < a + d) ts) :
    debounceFires d ts = [ts.getLast h + d] := by
  induction ts with
  | nil => cases h rfl
  | cons t rest ih =>
    cases rest with
    | nil => rfl
    | cons t' ts' =>
      have h1 : t' < t + d := (List.chain'_cons.mp hchain).1
      have h2 := (List.chain'_cons.mp hchain).2
      rw [debounceFires, if_pos h1, ih (List.cons_ne_nil t' ts') h2,
        List.getLast_cons (List.cons_ne_nil t' ts')]

/-- Spaced triggers: every gap is at least the quiet window, so every
scheduled timer fires, one window after its trigger. -/
theorem debounceFires_spaced (d : Nat) (ts : List Nat)
    (hchain : List.Chain' (fun a b => a + d ≤ b) ts) :
    debounceFires d ts = ts.map (· + d) := by
  induction ts with
  | nil => rfl
  | cons t rest ih =>
    cases rest with
    | nil => rfl
    | cons t' ts' =>
      have h1 : t + d ≤ t' := (List.chain'_cons.mp hchain).1
      have h2 := (List.chain'_cons.mp hchain).2
      rw [debounceFires, if_neg (Nat.not_lt.mpr h1), ih h2]
      simp

/-- Once the one-shot flag is down, no later snapshot ever reports the
initial-load status. -/
theorem runSnapshots_loaded_count_zero (dom : Dom) (snaps : List (Snapshot × Nat)) :
    (runSnapshots ⟨false, dom⟩ snaps).2.count ConnStatus.connectedLoaded = 0 := by
  induction snaps generalizing dom with
  | nil => rfl
  | cons s rest ih =>
    cases s with
    | mk snap now =>
      cases snap with
      | missing =>
        simp [runSnapshots, handleSnapshot, List.count_cons, ih]
      | existing data =>
        simp [runSnapshots, handleSnapshot, List.count_cons, ih]

/-- The initial-load status is reported at most once in any session. -/
theorem runSnapshots_loaded_at_most_once (st : SyncState)
    (snaps : List (Snapshot × Nat)) :
    (runSnapshots st snaps).2.count ConnStatus.connectedLoaded ≤ 1 := by
  induction snaps generalizing st with
  | nil => simp [runSnapshots]
  | cons s rest ih =>
    cases s with
    | mk snap now =>
      cases snap with
      | missing =>
        simpa [runSnapshots, handleSnapshot, List.count_cons] using ih st
      | existing data =>
        cases hflag : st.isInitialLoad with
        | false =>
          simpa [runSnapshots, handleSnapshot, hflag, List.count_cons] using
            ih { isInitialLoad := false,
                 dom := applyTrackMaxes (some (effectiveFields data))
                          (applyFieldsToDom (some (effectiveFields data)) st.dom) }
        | true =>
          simp [runSnapshots, handleSnapshot, hflag, List.count_cons,
            runSnapshots_loaded_count_zero]

/-- Mapping a function that fixes every member of a list is the identity. -/
theorem list_map_id_of_mem {α : Type} (l : List α) (f : α → α)
    (h : ∀ x ∈ l, f x = x) : l.map f = l := by
  induction l with
  | nil => rfl
  | cons x xs ih => simp_all

/-! ## Claims -/

/-- **C1 (counterexample).** The claim says a registered field whose key is
absent from the mapping keeps its logical value under `applyAll`.  At the
explicit input: one registered checked checkbox keyed `hp_0` and the empty
(but truthy) mapping, `applyFieldsToDom` unchecks the box — the field's
logical value is not left unchanged. -/
theorem applyAll_partial_apply_refuted :
    applyFieldsToDom (some [])
        [⟨some "hp_0", some ⟨ControlKind.checkbox, true, "", false⟩, false⟩]
      = [⟨some "hp_0", some ⟨ControlKind.checkbox, false, "", false⟩, false⟩]
    ∧ applyFieldsToDom (some [])
        [⟨some "hp_0", some ⟨ControlKind.checkbox, true, "", false⟩, false⟩]
      ≠ [⟨some "hp_0", some ⟨ControlKind.checkbox, true, "", false⟩, false⟩] := by
  decide

/-- **C1 (amended).** `applyAll` is a full re-render, not a partial apply:
every registered field is written, and a field whose key is absent from the
mapping is cleared (checkbox → unchecked, text → empty string) because the
undefined lookup is coerced (`!!undefined` / `undefined ?? ''`). -/
theorem applyAll_full_render (fields : Fields) (dom : Dom) (i : Nat)
    (hi : i < dom.length) (k : String) (c : Control)
    (hk : validKey dom[i] = some k)
    (hc : dom[i].control = some c)
    (habs : fieldsLookup fields k = none) :
    (applyFieldsToDom (some fields) dom)[i]?
      = some { dom[i] with
          control := some
            (match c.kind with
             | ControlKind.checkbox => { c with checked := false }
             | ControlKind.text => { c with value := "" }) } := by
  have hmap : (applyFieldsToDom (some fields) dom)[i]?
      = some (applyWrapperFields fields dom[i]) := by
    show (dom.map (applyWrapperFields fields))[i]? = _
    rw [List.getElem?_map, List.getElem?_eq_getElem hi]
    rfl
  rw [hmap]
  cases hkind : c.kind with
  | checkbox => simp [applyWrapperFields, hk, hc, habs, hkind, jsTruthy]
  | text => simp [applyWrapperFields, hk, hc, habs, hkind, jsNullishToString]

/-- Witness for the amended C1 at a concrete input: a checked checkbox keyed
`x` is cleared by a mapping that only mentions `y`. -/
theorem applyAll_full_render_witness :
    (applyFieldsToDom (some [("y", JsVal.vStr "1")])
        [⟨some "x", some ⟨ControlKind.checkbox, true, "", false⟩, false⟩])[0]?
      = some ⟨some "x", some ⟨ControlKind.checkbox, false, "", false⟩, false⟩ := by
  have h := applyAll_full_render [("y", JsVal.vStr "1")]
    [⟨some "x", some ⟨ControlKind.checkbox, true, "", false⟩, false⟩] 0 (by decide)
    "x" ⟨ControlKind.checkbox, true, "", false⟩ (by decide) (by decide) (by decide)
  simpa using h

/-- **C4.** `enforce` is idempotent: for every fields argument (truthy or
falsy) and every starting control state, running `applyTrackMaxes` twice
consecutively yields exactly the state produced by running it once. -/
theorem enforce_idempotent (fields : Option Fields) (dom : Dom) :
    applyTrackMaxes fields (applyTrackMaxes fields dom)
      = applyTrackMaxes fields dom := by
  cases fields with
  | none => rfl
  | some f =>
    simp only [applyTrackMaxes_eq_applyOps]
    exact applyOps_idem _ _ (trackOps_keyPreserving f) (trackOps_idem f)
      (by rw [trackOps_map_fst]; exact trackKeys_nodup)

/-- **C5.** Round-trip identity: with unique non-empty field keys (the data
model invariant), reading the full mapping of current control values and
immediately applying it back leaves every control unchanged. -/
theorem applyAll_readAll_roundTrip (dom : Dom) (hnd : (domKeys dom).Nodup) :
    applyFieldsToDom (some (getCurrentFieldsFromDom dom)) dom = dom :=
  list_map_id_of_mem dom _ (fun w hw => applyWrapperFields_self dom hnd w hw)

/-- Witness for C5 at a concrete page: a text field and a checkbox survive
the `readAll` / `applyAll` round trip. -/
theorem applyAll_readAll_roundTrip_witness :
    applyFieldsToDom
        (some (getCurrentFieldsFromDom
          [⟨some "name", some ⟨ControlKind.text, false, "Aria", false⟩, false⟩,
           ⟨some "hp_0", some ⟨ControlKind.checkbox, true, "", false⟩, false⟩]))
        [⟨some "name", some ⟨ControlKind.text, false, "Aria", false⟩, false⟩,
         ⟨some "hp_0", some ⟨ControlKind.checkbox, true, "", false⟩, false⟩]
      = [⟨some "name", some ⟨ControlKind.text, false, "Aria", false⟩, false⟩,
         ⟨some "hp_0", some ⟨ControlKind.checkbox, true, "", false⟩, false⟩] :=
  applyAll_readAll_roundTrip _ (by decide)

/-- **C7.** A missing document at snapshot delivery: the handler issues one
create-write consisting of the registry's current `readAll` output plus the
fresh timestamp, reports the connected-new status, leaves every control
untouched and leaves the one-shot flag up. -/
theorem snapshot_missing_creates_document (dom : Dom) (now : Nat) :
    handleSnapshot ⟨true, dom⟩ Snapshot.missing now
      = (⟨true, dom⟩, ConnStatus.connectedNew,
         [⟨getCurrentFieldsFromDom dom, now⟩]) := rfl

/-- **C9.** A push reads the current DOM once and issues exactly one write
attempt; the DOM is returned unchanged whether the write succeeds or fails,
the status is `synced` on success and `syncFailed` on failure, and no second
write attempt (retry) appears in either outcome. -/
theorem push_outcome_reporting (dom : Dom) (now : Nat) :
    pushUpdatesBody dom false now
        = (dom, ConnStatus.syncFailed, [⟨getCurrentFieldsFromDom dom, now⟩])
    ∧ pushUpdatesBody dom true now
        = (dom, ConnStatus.synced, [⟨getCurrentFieldsFromDom dom, now⟩]) :=
  ⟨rfl, rfl⟩

/-- **C10 (counterexample).** The claim concludes that a remote snapshot
carrying no `fields` member can never alter any control.  At the explicit
input: an existing snapshot whose document has no `fields` member and a page
with one text field holding `Aria`, the handler clears the field — the
absent member is defaulted to the empty mapping `{}`, which is truthy and
clears every registered control. -/
theorem snapshot_without_fields_clears_controls :
    (handleSnapshot
        ⟨true, [⟨some "name", some ⟨ControlKind.text, false, "Aria", false⟩, false⟩]⟩
        (Snapshot.existing (some none)) 0).1.dom
      ≠ [⟨some "name", some ⟨ControlKind.text, false, "Aria", false⟩, false⟩] := by
  decide

/-- **C10 (amended).** A null/undefined `fields` argument is a total no-op
for both `applyAll` and `enforce` (the falsy guard); but a snapshot without a
`fields` member — or with `data()` undefined — is defaulted to the empty
mapping before the guard, so it is processed exactly like an empty mapping
(a full clear-and-open sweep), not like `null`. -/
theorem null_fields_guard_noop :
    (∀ dom : Dom, applyFieldsToDom none dom = dom)
    ∧ (∀ dom : Dom, applyTrackMaxes none dom = dom)
    ∧ (∀ (st : SyncState) (now : Nat),
        handleSnapshot st (Snapshot.existing (some none)) now
          = handleSnapshot st (Snapshot.existing (some (some []))) now)
    ∧ (∀ (st : SyncState) (now : Nat),
        handleSnapshot st (Snapshot.existing none) now
          = handleSnapshot st (Snapshot.existing (some (some []))) now) :=
  ⟨fun _ => rfl, fun _ => rfl, fun _ _ => rfl, fun _ _ => rfl⟩

/-- **C2.** With `{T}_max` declared as a value coercing to the non-negative
integer `m`, after `enforce` the unique sub-field wrapper for each index
`i < min(m, A)` has an enabled control and no beyond-max marker (value
untouched), and for each `min(m, A) ≤ i < A` the wrapper is marked and its
control disabled and cleared (checkbox → unchecked, text → empty). -/
theorem enforce_declared_max (fields : Fields) (dom : Dom) (b : String) (A m : Nat)
    (hb : (b, A) ∈ TRACK_DEFINITIONS)
    (hm : jsParseInt (parseArgString (fieldsLookup fields (b ++ "_max")))
            = some (m : Int))
    (i : Nat) (hi : i < A) (w : Wrapper) (c : Control)
    (hw : findFirst (trackKey b i) dom = some w) (hc : w.control = some c) :
    ∃ w', findFirst (trackKey b i) (applyTrackMaxes (some fields) dom) = some w' ∧
      (i < min m A →
        w'.trackDisabled = false ∧
        ∃ c', w'.control = some c' ∧ c'.disabled = false ∧
          c'.checked = c.checked ∧ c'.value = c.value) ∧
      (min m A ≤ i →
        w'.trackDisabled = true ∧
        ∃ c', w'.control = some c' ∧ c'.disabled = true ∧
          (c.kind = ControlKind.checkbox → c'.checked = false) ∧
          (c.kind = ControlKind.text → c'.value = "")) := by
  have hcm : currentMaxOf fields b A = min m A := by
    simp only [currentMaxOf, hm]
    split_ifs with h1 h2
    · omega
    · omega
    · omega
  have hroute := findFirst_applyTrackMaxes fields dom b A hb i hi
  rw [hcm, hw, Option.map_some'] at hroute
  refine ⟨enforceWrapper (decide (i < min m A)) w, hroute, ?_, ?_⟩
  · intro hlt
    rw [decide_eq_true hlt, enforceWrapper_active w c hc]
    exact ⟨rfl, { c with disabled := false }, rfl, rfl, rfl, rfl⟩
  · intro hge
    rw [decide_eq_false (Nat.not_lt.mpr hge)]
    cases hkind : c.kind with
    | checkbox =>
      rw [enforceWrapper_inactive_checkbox w c hc hkind]
      exact ⟨rfl, { c with checked := false, disabled := true },
        rfl, rfl, fun _ => rfl, fun h => ControlKind.noConfusion h⟩
    | text =>
      rw [enforceWrapper_inactive_text w c hc hkind]
      exact ⟨rfl, { c with value := "", disabled := true },
        rfl, rfl, fun h => ControlKind.noConfusion h, fun _ => rfl⟩

/-- Witness for C2 on the `hp` track (absolute max 12) with declared max 3:
index 0 stays enabled, index 5 is cleared, disabled and marked. -/
theorem enforce_declared_max_witness :
    (∃ w', findFirst (trackKey "hp" 0)
          (applyTrackMaxes (some [("hp_max", JsVal.vNum 3)])
            [⟨some "hp_0", some ⟨ControlKind.checkbox, true, "", false⟩, false⟩,
             ⟨some "hp_5", some ⟨ControlKind.checkbox, true, "", false⟩, false⟩])
        = some w' ∧
      (0 < min 3 12 →
        w'.trackDisabled = false ∧
        ∃ c', w'.control = some c' ∧ c'.disabled = false ∧
          c'.checked = true ∧ c'.value = "") ∧
      (min 3 12 ≤ 0 →
        w'.trackDisabled = true ∧
        ∃ c', w'.control = some c' ∧ c'.disabled = true ∧
          (ControlKind.checkbox = ControlKind.checkbox → c'.checked = false) ∧
          (ControlKind.checkbox = ControlKind.text → c'.value = "")))
    ∧ (∃ w', findFirst (trackKey "hp" 5)
          (applyTrackMaxes (some [("hp_max", JsVal.vNum 3)])
            [⟨some "hp_0", some ⟨ControlKind.checkbox, true, "", false⟩, false⟩,
             ⟨some "hp_5", some ⟨ControlKind.checkbox, true, "", false⟩, false⟩])
        = some w' ∧
      (5 < min 3 12 →
        w'.trackDisabled = false ∧
        ∃ c', w'.control = some c' ∧ c'.disabled = false ∧
          c'.checked = true ∧ c'.value = "") ∧
      (min 3 12 ≤ 5 →
        w'.trackDisabled = true ∧
        ∃ c', w'.control = some c' ∧ c'.disabled = true ∧
          (ControlKind.checkbox = ControlKind.checkbox → c'.checked = false) ∧
          (ControlKind.checkbox = ControlKind.text → c'.value = ""))) :=
  ⟨enforce_declared_max [("hp_max", JsVal.vNum 3)]
      [⟨some "hp_0", some ⟨ControlKind.checkbox, true, "", false⟩, false⟩,
       ⟨some "hp_5", some ⟨ControlKind.checkbox, true, "", false⟩, false⟩]
      "hp" 12 3 (by decide) (by decide) 0 (by decide)
      ⟨some "hp_0", some ⟨ControlKind.checkbox, true, "", false⟩, false⟩
      ⟨ControlKind.checkbox, true, "", false⟩ (by decide) rfl,
   enforce_declared_max [("hp_max", JsVal.vNum 3)]
      [⟨some "hp_0", some ⟨ControlKind.checkbox, true, "", false⟩, false⟩,
       ⟨some "hp_5", some ⟨ControlKind.checkbox, true, "", false⟩, false⟩]
      "hp" 12 3 (by decide) (by decide) 5 (by decide)
      ⟨some "hp_5", some ⟨ControlKind.checkbox, true, "", false⟩, false⟩
      ⟨ControlKind.checkbox, true, "", false⟩ (by decide) rfl⟩

/-- **C3.** An absent, non-numeric or negative `{T}_max` makes the effective
maximum the absolute maximum, and so does a declared value exceeding it:
in all such cases every sub-field of the track is routed through the active
(enable and unmark) transformation — the track is fully open. -/
theorem enforce_invalid_max_fully_open (fields : Fields) (dom : Dom) (b : String)
    (A : Nat) (hb : (b, A) ∈ TRACK_DEFINITIONS)
    (hinv : jsParseInt (parseArgString (fieldsLookup fields (b ++ "_max"))) = none
      ∨ ∃ n : Int,
          jsParseInt (parseArgString (fieldsLookup fields (b ++ "_max"))) = some n
          ∧ (n < 0 ∨ (A : Int) < n)) :
    currentMaxOf fields b A = A
    ∧ (∀ i, i < A →
        findFirst (trackKey b i) (applyTrackMaxes (some fields) dom)
          = (findFirst (trackKey b i) dom).map (enforceWrapper true))
    ∧ (∀ i, i < A → ∀ w c, findFirst (trackKey b i) dom = some w →
        w.control = some c →
        ∃ w', findFirst (trackKey b i) (applyTrackMaxes (some fields) dom)
            = some w' ∧ w'.trackDisabled = false
            ∧ w'.control = some { c with disabled := false }) := by
  have hcm : currentMaxOf fields b A = A := by
    rcases hinv with hnan | ⟨n, hn, hrange⟩
    · simp only [currentMaxOf, hnan]
    · simp only [currentMaxOf, hn]
      rcases hrange with h | h
      · rw [if_pos h]
      · rw [if_neg (by omega), if_pos h]
  have hroute : ∀ i, i < A →
      findFirst (trackKey b i) (applyTrackMaxes (some fields) dom)
        = (findFirst (trackKey b i) dom).map (enforceWrapper true) := by
    intro i hi
    have h := findFirst_applyTrackMaxes fields dom b A hb i hi
    rw [hcm, decide_eq_true hi] at h
    exact h
  refine ⟨hcm, hroute, fun i hi w c hw hc => ?_⟩
  refine ⟨enforceWrapper true w, ?_, ?_, ?_⟩
  · rw [hroute i hi, hw, Option.map_some']
  · rw [enforceWrapper_active w c hc]
  · rw [enforceWrapper_active w c hc]

/-- Witness for C3: with no `hp_max` entry at all, the `hp` track is fully
open and a disabled sub-field wrapper is re-enabled and unmarked. -/
theorem enforce_invalid_max_fully_open_witness :
    currentMaxOf [] "hp" 12 = 12
    ∧ (∃ w', findFirst (trackKey "hp" 0)
          (applyTrackMaxes (some [])
            [⟨some "hp_0", some ⟨ControlKind.checkbox, false, "", true⟩, true⟩])
        = some w' ∧ w'.trackDisabled = false
        ∧ w'.control = some ⟨ControlKind.checkbox, false, "", false⟩) := by
  have h := enforce_invalid_max_fully_open []
    [⟨some "hp_0", some ⟨ControlKind.checkbox, false, "", true⟩, true⟩]
    "hp" 12 (by decide) (Or.inl (by decide))
  exact ⟨h.1, h.2.2 0 (by decide)
    ⟨some "hp_0", some ⟨ControlKind.checkbox, false, "", true⟩, true⟩
    ⟨ControlKind.checkbox, false, "", true⟩ (by decide) rfl⟩

/-- **C6.** The local change capture is a trailing-edge debounce with quiet
window 400 ms (within the specified 400–500 ms range): a burst of triggers
each arriving within the window of its predecessor yields exactly one
callback invocation, one window after the last trigger; triggers spaced at
least one window apart each yield their own invocation. -/
theorem debounce_trailing_edge (ts : List Nat) (h : ts ≠ []) :
    (400 ≤ debounceDelay ∧ debounceDelay ≤ 500)
    ∧ (List.Chain' (fun a b => b < a + debounceDelay) ts →
        debounceFires debounceDelay ts = [ts.getLast h + debounceDelay])
    ∧ (List.Chain' (fun a b => a + debounceDelay ≤ b) ts →
        debounceFires debounceDelay ts = ts.map (· + debounceDelay)) :=
  ⟨⟨by decide, by decide⟩,
   fun hchain => debounceFires_burst debounceDelay ts h hchain,
   fun hchain => debounceFires_spaced debounceDelay ts hchain⟩

/-- Witness for C6: a three-trigger burst at 0, 100, 300 ms fires once at
700 ms; three spaced triggers at 0, 500, 1000 ms fire three times. -/
theorem debounce_trailing_edge_witness :
    debounceFires debounceDelay [0, 100, 300] = [300 + debounceDelay]
    ∧ debounceFires debounceDelay [0, 500, 1000]
        = [0 + debounceDelay, 500 + debounceDelay, 1000 + debounceDelay] := by
  have h1 := (debounce_trailing_edge [0, 100, 300] (by decide)).2.1
    (by norm_num [List.chain'_cons, debounceDelay])
  have h2 := (debounce_trailing_edge [0, 500, 1000] (by decide)).2.2
    (by norm_num [List.chain'_cons, debounceDelay])
  exact ⟨h1, h2⟩

/-- **C8 (counterexample).** The claim says every snapshot delivered after
the first transition to bound-live reports the updated-from-remote status.
At the explicit input: a session starting on an empty page whose first
snapshot is a missing document (first transition, reported connected-new),
the second delivered snapshot (the existing document) reports
connected-loaded, not updated-from-remote — the missing-document branch
returns early without clearing the one-shot flag. -/
theorem snapshot_after_create_reports_loaded :
    (runSnapshots ⟨true, []⟩
        [(Snapshot.missing, 0), (Snapshot.existing (some (some [])), 1)]).2
      = [ConnStatus.connectedNew, ConnStatus.connectedLoaded]
    ∧ ConnStatus.connectedLoaded ≠ ConnStatus.updatedFromCloud := by
  decide

/-- **C8 (amended).** Every *existing-document* snapshot re-runs `applyAll`
followed by `enforce` over the snapshot's fields.  The status is decided by
the one-shot flag: while it is up an existing snapshot reports
connected-loaded and clears it, afterwards existing snapshots report
updated-from-remote; a missing-document snapshot reports connected-new and
leaves the flag untouched, so the loaded status is reported at most once per
session. -/
theorem snapshot_statuses_one_shot_flag :
    (∀ (st : SyncState) (data : Option (Option Fields)) (now : Nat),
      st.isInitialLoad = false →
        handleSnapshot st (Snapshot.existing data) now
          = ({ isInitialLoad := false,
               dom := applyTrackMaxes (some (effectiveFields data))
                        (applyFieldsToDom (some (effectiveFields data)) st.dom) },
             ConnStatus.updatedFromCloud, []))
    ∧ (∀ (st : SyncState) (data : Option (Option Fields)) (now : Nat),
      st.isInitialLoad = true →
        handleSnapshot st (Snapshot.existing data) now
          = ({ isInitialLoad := false,
               dom := applyTrackMaxes (some (effectiveFields data))
                        (applyFieldsToDom (some (effectiveFields data)) st.dom) },
             ConnStatus.connectedLoaded, []))
    ∧ (∀ (st : SyncState) (snaps : List (Snapshot × Nat)),
        (runSnapshots st snaps).2.count ConnStatus.connectedLoaded ≤ 1) := by
  refine ⟨fun st data now hflag => ?_, fun st data now hflag => ?_,
    fun st snaps => runSnapshots_loaded_at_most_once st snaps⟩
  · simp [handleSnapshot, hflag]
  · simp [handleSnapshot, hflag]

/-- Witness for the amended C8: with the flag already down, an existing
snapshot on an empty page reports updated-from-remote; a two-snapshot
session reports the loaded status exactly once. -/
theorem snapshot_statuses_one_shot_flag_witness :
    handleSnapshot ⟨false, []⟩ (Snapshot.existing (some (some []))) 7
      = (⟨false, []⟩, ConnStatus.updatedFromCloud, [])
    ∧ (runSnapshots ⟨true, []⟩
        [(Snapshot.existing (some (some [])), 0),
         (Snapshot.existing (some (some [])), 1)]).2.count
          ConnStatus.connectedLoaded ≤ 1 := by
  have h1 := snapshot_statuses_one_shot_flag.1 ⟨false, []⟩ (some (some [])) 7 rfl
  have h2 := snapshot_statuses_one_shot_flag.2.2 ⟨true, []⟩
    [(Snapshot.existing (some (some [])), 0),
     (Snapshot.existing (some (some [])), 1)]
  exact ⟨by simpa using h1, h2⟩

end SheetFirebase
